import Mathlib

/-!
Verification development for the `stdlib-extensions` repository.

Shallow embedding of the parts of the code the claims refer to:

* `ext/subscription.py` -- the `Subscribable` mixin: the per-instance
  callback registry (`__events__`), `subscribe`, `_notify` / `notify` /
  `notify_once`, the mute state, the generated field setter produced by
  `subscribable_field`, and the lazy creation of the registry and the
  per-instance mutex;
* `collections/_collections.py` -- `IdentifierDict` (`_format_key`) together
  with the `ComposedCollection` / `KeyItemGet` / `KeyItemSet` / `KeyItemDel`
  base operations it inherits;
* `_shared.py` -- `create_function`.

Conventions of the embedding:

* Dictionaries are association lists (`alFind` / `alSet` / `alDel`); this
  matches dict behaviour whenever keys are unique, which all modelled code
  maintains.
* Callback identity is a natural number (`CbId`); a callback's behaviour is
  given by an environment mapping its identity to a list of commands
  (`CbCmd`): a callback may mute or unmute the instance, raise an exception,
  or trigger a nested notification.  Nested notification consumes one unit
  of fuel per callback invocation, mirroring the recursion budget of the
  host runtime.
* Every run returns the final instance state, the ordered trace of callback
  invocations (callback identity, field name, event-flag mask -- exactly the
  three arguments the code passes to each callback), and an optional
  exception.
* Strings handled character-wise are modelled over the ASCII fragment, on
  which the embedded character predicates agree with the host language's
  `str.isspace`, `str.isalpha`, `str.casefold` and `str.isidentifier`.
-/

deriving instance DecidableEq for Except

/-! ## Association lists (the embedding of dicts) -/

/-- First-match lookup, the embedding of `d[k]` on a dict with unique keys. -/
def alFind {α β : Type} [DecidableEq α] : List (α × β) → α → Option β
  | [], _ => none
  | e :: m, k => if e.1 = k then some e.2 else alFind m k

/-- The embedding of `d[k] = v`: replace the value in place if the key is
present, append a fresh entry otherwise (dict insertion order). -/
def alSet {α β : Type} [DecidableEq α] : List (α × β) → α → β → List (α × β)
  | [], k, v => [(k, v)]
  | e :: m, k, v => if e.1 = k then (k, v) :: m else e :: alSet m k v

/-- The embedding of `del d[k]` on a present key. -/
def alDel {α β : Type} [DecidableEq α] : List (α × β) → α → List (α × β)
  | [], _ => []
  | e :: m, k => if e.1 = k then m else e :: alDel m k

/-! ## The `Subscribable` mixin (`ext/subscription.py`) -/

/-- Identity of a registered callback. -/
abbrev CbId := Nat

/-- Behaviour of a callback body, as far as it interacts with the
`Subscribable` framework: it can mute/unmute the instance, raise, or call
`notify` again. -/
inductive CbCmd where
  | muteC
  | unmuteC
  | raiseC
  | notifyC (field : String) (flags : Nat)
deriving DecidableEq

/-- Exceptions the modelled code can raise: the `ValueError` built by
`_unsupported_subscription_err`, an exception raised by a user callback, and
exhaustion of the recursion budget (`RecursionError`). -/
inductive NotifyErr where
  | unsupported (field : String) (flag : Nat)
  | userExc
  | outOfFuel
deriving DecidableEq

/-- One recorded callback invocation: `callback(self, field, event_flags)`.
The instance argument is implicit (there is a single instance in a run). -/
abbrev CallRec := CbId × String × Nat

/-- The `__events__` registry: a mapping from `(field, flag)` pairs to lists
of callbacks, in the order the code creates and appends to them. -/
abbrev Registry := List ((String × Nat) × List CbId)

/-- Instance state visible to the modelled methods: the callback registry,
the `_is_muted` cache entry (absent is observationally `False`), and the
`__cache__` slots holding subscribable field values. -/
structure SubState where
  reg : Registry
  muted : Bool
  cache : List (String × Nat)
deriving DecidableEq

/-- `__EVENT_FLAGS = tuple(int(f) for f in EventFlag)`: the canonical members
`ON_SET = 4`, `ON_DEL = 8`, `ON_CALL = 16`, `ON_PRE_CALL = 32`
(`ON_POST_CALL` is an alias of `ON_CALL` and is skipped by iteration). -/
def EVENT_FLAGS : List Nat := [4, 8, 16, 32]

/-- The flags of `EVENT_FLAGS` selected by a mask (`event_flags & flag`). -/
def matchedFlags (flags : Nat) : List Nat :=
  EVENT_FLAGS.filter (fun fl => flags &&& fl != 0)

/-- `Subscribable._iter_queue_keys`. -/
def iterQueueKeys (field : String) (flags : Nat) : List (String × Nat) :=
  (matchedFlags flags).map (fun fl => (field, fl))

/-- The registry built by the `__events__` property on first access: an empty
callback list for every declared field and each single event flag its mask
contains, fields outermost, flags in `EventFlag` order. -/
def initRegistry : List (String × Nat) → Registry
  | [] => []
  | (f, fls) :: rest =>
    (matchedFlags fls).map (fun fl => ((f, fl), ([] : List CbId))) ++ initRegistry rest

/-- Result of running framework code: final state, invocation trace, and an
optional propagating exception. -/
abbrev NRes := SubState × List CallRec × Option NotifyErr

/-- Execute one callback command.  `doNotify` is the (re-entrant) body of
`Subscribable.notify`: it checks `is_muted` before `_notify`. -/
def runCmdWith (doNotify : SubState → String → Nat → NRes) (st : SubState) : CbCmd → NRes
  | CbCmd.muteC => ({st with muted := true}, [], none)
  | CbCmd.unmuteC => ({st with muted := false}, [], none)
  | CbCmd.raiseC => (st, [], some NotifyErr.userExc)
  | CbCmd.notifyC f fl => if st.muted then (st, [], none) else doNotify st f fl

/-- Execute a callback body (its command list); an exception aborts the rest. -/
def runCmdsWith (doNotify : SubState → String → Nat → NRes) :
    SubState → List CbCmd → NRes
  | st, [] => (st, [], none)
  | st, c :: cs =>
    match runCmdWith doNotify st c with
    | (st1, tr1, none) =>
      match runCmdsWith doNotify st1 cs with
      | (st2, tr2, e) => (st2, tr1 ++ tr2, e)
    | r => r

/-- The inner loop of `_notify`: `for callback in queue:
callback(self, field, event_flags)`.  Every invocation is recorded before the
callback body runs; an exception propagates immediately. -/
def runQueueWith (runCb : SubState → CbId → NRes) (field : String) (flagsArg : Nat) :
    SubState → List CbId → NRes
  | st, [] => (st, [], none)
  | st, cb :: q =>
    match runCb st cb with
    | (st1, tr1, none) =>
      match runQueueWith runCb field flagsArg st1 q with
      | (st2, tr2, e) => (st2, (cb, field, flagsArg) :: (tr1 ++ tr2), e)
    | (st1, tr1, some e) => (st1, (cb, field, flagsArg) :: tr1, some e)

/-- The outer loop of `_notify`: `for flag in __EVENT_FLAGS: if event_flags &
flag: ...`, raising `_unsupported_subscription_err` when the `(field, flag)`
key is missing from `__events__`. -/
def notifyFlagsWith (runCb : SubState → CbId → NRes) (field : String) (flagsArg : Nat) :
    SubState → List Nat → NRes
  | st, [] => (st, [], none)
  | st, fl :: fls =>
    if flagsArg &&& fl != 0 then
      match alFind st.reg (field, fl) with
      | none => (st, [], some (NotifyErr.unsupported field fl))
      | some q =>
        match runQueueWith runCb field flagsArg st q with
        | (st1, tr1, none) =>
          match notifyFlagsWith runCb field flagsArg st1 fls with
          | (st2, tr2, e) => (st2, tr1 ++ tr2, e)
        | r => r
    else notifyFlagsWith runCb field flagsArg st fls

/-- `Subscribable._notify`, parametric in the callback runner. -/
def notifyCoreWith (runCb : SubState → CbId → NRes) (st : SubState)
    (field : String) (flags : Nat) : NRes :=
  notifyFlagsWith runCb field flags st EVENT_FLAGS

/-- Run one callback from the environment; each invocation consumes one unit
of fuel, and a nested `notify` issued by its body runs with the remainder. -/
def runCbFuel (env : CbId → List CbCmd) : Nat → SubState → CbId → NRes
  | 0, st, _ => (st, [], some NotifyErr.outOfFuel)
  | fuel + 1, st, cb =>
    runCmdsWith
      (fun st1 f fl => notifyCoreWith (runCbFuel env fuel) st1 f fl) st (env cb)

/-- `Subscribable.notify`: does nothing when the instance is muted, otherwise
runs `_notify`. -/
def pyNotify (env : CbId → List CbCmd) (fuel : Nat) (st : SubState)
    (field : String) (flags : Nat) : NRes :=
  if st.muted then (st, [], none)
  else notifyCoreWith (runCbFuel env fuel) st field flags

/-- `Subscribable.notify_once`: when unmuted, runs `_notify` inside the
`suppressed()` context manager, which saves `_is_muted`, sets it to `True`,
and restores the saved value in a `finally` block (also on exception). -/
def pyNotifyOnce (env : CbId → List CbCmd) (fuel : Nat) (st : SubState)
    (field : String) (flags : Nat) : NRes :=
  if st.muted then (st, [], none)
  else
    let saved := st.muted
    match notifyCoreWith (runCbFuel env fuel) {st with muted := true} field flags with
    | (st1, tr, e) => ({st1 with muted := saved}, tr, e)

/-- The setter generated by `subscribable_field` (attribute-emulation path,
`on_set` enabled): `self.__cache__[name] = value` followed by
`self.notify(name, 4)` -- the value is stored first, then `ON_SET`
subscribers run. -/
def setField (env : CbId → List CbCmd) (fuel : Nat) (st : SubState)
    (field : String) (v : Nat) : NRes :=
  pyNotify env fuel {st with cache := alSet st.cache field v} field 4

/-- The loop of `Subscribable.subscribe` over `_iter_queue_keys`: a missing
queue raises `_unsupported_subscription_err`; a callback is appended only if
it is not already in the queue. -/
def subscribeKeys (cb : CbId) : Registry → List (String × Nat) → Except NotifyErr Registry
  | reg, [] => Except.ok reg
  | reg, k :: ks =>
    match alFind reg k with
    | none => Except.error (NotifyErr.unsupported k.1 k.2)
    | some q => subscribeKeys cb (if cb ∈ q then reg else alSet reg k (q ++ [cb])) ks

/-- `Subscribable.subscribe` acting on the instance state. -/
def pySubscribe (st : SubState) (field : String) (flags : Nat) (cb : CbId) :
    Except NotifyErr SubState :=
  match subscribeKeys cb st.reg (iterQueueKeys field flags) with
  | Except.error e => Except.error e
  | Except.ok reg1 => Except.ok {st with reg := reg1}

/-- A sequence of `subscribe(field, flags, callback)` calls applied to a
registry; the whole sequence fails as soon as one call raises. -/
def applySubs : Registry → List (String × Nat × CbId) → Except NotifyErr Registry
  | reg, [] => Except.ok reg
  | reg, s :: rest =>
    match subscribeKeys s.2.2 reg (iterQueueKeys s.1 s.2.1) with
    | Except.error e => Except.error e
    | Except.ok reg1 => applySubs reg1 rest

/-- The queue contents predicted for `(field, flag)` after a sequence of
successful subscribe calls: callbacks in first-registration order, without
duplicates. -/
def registrationOrder (field : String) (flag : Nat) :
    List CbId → List (String × Nat × CbId) → List CbId
  | q, [] => q
  | q, s :: rest =>
    registrationOrder field flag
      (if s.1 = field ∧ s.2.1 &&& flag ≠ 0 ∧ s.2.2 ∉ q then q ++ [s.2.2] else q) rest

/-! ## Lazy creation of the per-instance mutex and registry
(`Subscribable.__mutex__`, `Subscribable.__events__`) -/

/-- The `__cache__` slots the two lazy properties use: the `'__mutex__'`
entry (a lock, identified by an allocation number), the `'__events__'`
entry, and the allocator for fresh lock identities. -/
structure CacheSt where
  mutexId : Option Nat
  events : Option Registry
  nextId : Nat
deriving DecidableEq

/-- Observable lock activity of `__events__`: acquiring a lock, building the
registry, releasing a lock -- in the order they happen. -/
inductive LockAct where
  | acq (m : Nat)
  | build
  | rel (m : Nat)
deriving DecidableEq

/-- The `__mutex__` property: return the cached lock, or create and cache a
fresh one. -/
def getMutex (st : CacheSt) : Nat × CacheSt :=
  match st.mutexId with
  | some m => (m, st)
  | none => (st.nextId, {st with mutexId := some st.nextId, nextId := st.nextId + 1})

/-- The `__events__` property: return the cached registry if present;
otherwise take `self.__mutex__`, build the registry from `__event_fields__`
while holding it, cache it, and release the lock. -/
def getEvents (efs : List (String × Nat)) (st : CacheSt) :
    Registry × CacheSt × List LockAct :=
  match st.events with
  | some r => (r, st, [])
  | none =>
    let p := getMutex st
    let r := initRegistry efs
    (r, {p.2 with events := some r}, [LockAct.acq p.1, LockAct.build, LockAct.rel p.1])

/-! ## `IdentifierDict` (`collections/_collections.py`)

Keys are `List Char` over the ASCII fragment.  The character predicates
below are the host language's, restricted to ASCII. -/

/-- `str.isspace` / the whitespace set of `str.split` and `str.strip`,
restricted to ASCII (space, tab, LF, VT, FF, CR, and the separator control
characters 0x1c-0x1f). -/
def pyIsSpace (c : Char) : Bool :=
  c.toNat = 32 || c.toNat = 9 || c.toNat = 10 || c.toNat = 11 || c.toNat = 12 ||
    c.toNat = 13 || (28 ≤ c.toNat && c.toNat ≤ 31)

/-- `str.isalpha` restricted to ASCII. -/
def pyIsAlpha (c : Char) : Bool :=
  c.isAlpha

/-- `str.isdigit` restricted to ASCII. -/
def pyIsDigit (c : Char) : Bool :=
  c.isDigit

/-- `str.casefold` on a single ASCII character: an upper-case letter
(code 65-90) maps to its lower-case form (code + 32), anything else is
unchanged. -/
def pyCasefold (c : Char) : Char :=
  if h : 65 ≤ c.toNat ∧ c.toNat ≤ 90 then
    Char.ofNatAux (c.toNat + 32) (Or.inl (by omega))
  else c

/-- The character substitution of `.replace(' ', '_')`. -/
def replSpace (c : Char) : Char :=
  if c = ' ' then '_' else c

/-- `str.strip()`: drop whitespace from both ends. -/
def pyStrip (s : List Char) : List Char :=
  ((s.dropWhile pyIsSpace).reverse.dropWhile pyIsSpace).reverse

/-- Worker for `str.split()`: accumulate the current word (reversed) and cut
at whitespace runs, dropping empty words. -/
def splitAux : List Char → List Char → List (List Char)
  | [], acc => if acc.isEmpty then [] else [acc.reverse]
  | c :: cs, acc =>
    if pyIsSpace c then
      if acc.isEmpty then splitAux cs [] else acc.reverse :: splitAux cs []
    else splitAux cs (c :: acc)

/-- `str.split()` with no argument: split on whitespace runs. -/
def pySplit (s : List Char) : List (List Char) :=
  splitAux s []

/-- `sep.join(words)`. -/
def joinSep (sep : Char) : List (List Char) → List Char
  | [] => []
  | [w] => w
  | w :: ws => w ++ sep :: joinSep sep ws

/-- Identifier start characters, ASCII: letters and underscore. -/
def pyIsIdentStart (c : Char) : Bool :=
  pyIsAlpha c || c = '_'

/-- Identifier continuation characters, ASCII: letters, digits, underscore. -/
def pyIsIdentCont (c : Char) : Bool :=
  pyIsAlpha c || pyIsDigit c || c = '_'

/-- `str.isidentifier()` restricted to ASCII. -/
def pyIsIdentifier : List Char → Bool
  | [] => false
  | c :: cs => pyIsIdentStart c && cs.all pyIsIdentCont

/-- The first line of `IdentifierDict._format_key`:
`' '.join(key.strip().split()).casefold().replace(' ', '_')`. -/
def normCore (key : List Char) : List Char :=
  ((joinSep (' ') (pySplit (pyStrip key))).map pyCasefold).map replSpace

/-- `IdentifierDict._format_key`: normalize the key; an empty result
(`IndexError` on `k[0]`) or a result that is not a valid identifier raises
`ValueError`; a non-alphabetic first character gets an underscore
prepended before the identifier check. -/
def formatKey (key : List Char) : Except Unit (List Char) :=
  match normCore key with
  | [] => Except.error ()
  | c :: cs =>
    let k := if pyIsAlpha c then c :: cs else '_' :: c :: cs
    if pyIsIdentifier k then Except.ok k else Except.error ()

/-- The normalization of claim C3, stated from the spec's words: strip,
collapse internal whitespace runs to single underscores, casefold, and
prepend an underscore when the first character is not alphabetic. -/
def specNormalize (key : List Char) : List Char :=
  match (joinSep ('_') (pySplit (pyStrip key))).map pyCasefold with
  | [] => []
  | c :: cs => if pyIsAlpha c then c :: cs else '_' :: c :: cs

/-- Errors of the dict operations: the `ValueError` raised by `_format_key`
and the `KeyError` raised for a missing (formatted) key. -/
inductive DictErr where
  | valueErr
  | keyErr
deriving DecidableEq

/-- An `IdentifierDict`: its `_object_value_` backing dict. -/
structure IdentifierDict where
  obj : List (List Char × Nat)
deriving DecidableEq

/-- `KeyItemGet.__getitem__` on an `IdentifierDict`: format the key
(`ValueError` on failure), then look it up (`KeyError` when missing). -/
def idGetItem (d : IdentifierDict) (k : List Char) : Except DictErr Nat :=
  match formatKey k with
  | Except.error _ => Except.error DictErr.valueErr
  | Except.ok fk =>
    match alFind d.obj fk with
    | some v => Except.ok v
    | none => Except.error DictErr.keyErr

/-- `KeyItemSet.__setitem__` on an `IdentifierDict`: format the key
(`ValueError` on failure), then store under the formatted key. -/
def idSetItem (d : IdentifierDict) (k : List Char) (v : Nat) :
    Except DictErr IdentifierDict :=
  match formatKey k with
  | Except.error _ => Except.error DictErr.valueErr
  | Except.ok fk => Except.ok ⟨alSet d.obj fk v⟩

/-- `KeyItemDel.__delitem__` on an `IdentifierDict`: format the key
(`ValueError` on failure), then delete the formatted key (`KeyError` when
missing). -/
def idDelItem (d : IdentifierDict) (k : List Char) : Except DictErr IdentifierDict :=
  match formatKey k with
  | Except.error _ => Except.error DictErr.valueErr
  | Except.ok fk =>
    if (alFind d.obj fk).isSome then Except.ok ⟨alDel d.obj fk⟩
    else Except.error DictErr.keyErr

/-- `ComposedCollection.__contains__`: `__value in self._object_value_`,
with no key formatting. -/
def idContains (d : IdentifierDict) (k : List Char) : Bool :=
  (alFind d.obj k).isSome

/-! ## `create_function` (`_shared.py`) -/

/-- The function object returned by `create_function`, with the attributes
the claims are about.  `closure` holds the enclosing-scope bindings of the
generated inner function: the parameters of the generated
`__create_function__` wrapper, which are exactly the keys of the (copied)
locals dict, bound to the values passed via `**locals`. -/
structure FnObj where
  fname : String
  qualname : String
  modName : String
  params : List String
  bodySrc : List String
  closure : List (String × Nat)
deriving DecidableEq

/-- `create_function(name, args, body, return_type, module, locals=...)`.
The code copies the caller's locals (`locals = dict(locals)`), adds
`'_return_type'` to the copy, builds the inner function whose closure binds
each key of the copy to its value, and sets `__qualname__` and `__name__`
to `name`.  The caller's mapping is returned unchanged as the second
component: the call never mutates it.  (Resolution of the `globals` dict
via `sys.modules` is not modelled; no claim depends on it.)  Values are
abstracted as naturals. -/
def createFunction (name : String) (args : List String) (body : List String)
    (returnType : Nat) (module : String) (locals : List (String × Nat)) :
    FnObj × List (String × Nat) :=
  let localsC := alSet locals ("_return_type") returnType
  ({ fname := name
     qualname := name
     modName := module
     params := args
     bodySrc := body
     closure := localsC }, locals)

/-! ## Association-list lemmas -/

theorem alFind_alSet_self {α β : Type} [DecidableEq α] (m : List (α × β)) (k : α) (v : β) :
    alFind (alSet m k v) k = some v := by
  induction m with
  | nil => simp [alFind, alSet]
  | cons e m ih =>
    by_cases h : e.1 = k
    · simp [alFind, alSet, h]
    · simp [alFind, alSet, h, ih]

theorem alFind_alSet_ne {α β : Type} [DecidableEq α] (m : List (α × β)) (k k' : α) (v : β)
    (h : k' ≠ k) : alFind (alSet m k v) k' = alFind m k' := by
  have h2 : ¬ (k = k') := fun hh => h hh.symm
  induction m with
  | nil => simp [alFind, alSet, h2]
  | cons e m ih =>
    by_cases he : e.1 = k
    · have he' : ¬ (e.1 = k') := by rw [he]; exact h2
      simp only [alSet, if_pos he, alFind]
      rw [if_neg h2, if_neg he']
    · simp only [alSet, if_neg he, alFind, ih]

theorem alFind_mem {α β : Type} [DecidableEq α] {m : List (α × β)} {k : α} {v : β}
    (h : alFind m k = some v) : (k, v) ∈ m := by
  induction m with
  | nil => simp [alFind] at h
  | cons e m ih =>
    by_cases he : e.1 = k
    · simp only [alFind, if_pos he] at h
      cases h
      have heq : (k, e.2) = e := by rw [← he]
      exact List.mem_cons.2 (Or.inl heq)
    · simp only [alFind, if_neg he] at h
      exact List.mem_cons_of_mem _ (ih h)

theorem alFind_isSome_iff_mem {α β : Type} [DecidableEq α] (m : List (α × β)) (k : α) :
    (alFind m k).isSome = true ↔ k ∈ m.map Prod.fst := by
  induction m with
  | nil => simp [alFind]
  | cons e m ih =>
    by_cases he : e.1 = k
    · simp only [alFind, if_pos he, Option.isSome_some, List.map_cons, List.mem_cons]
      constructor
      · intro _
        exact Or.inl he.symm
      · intro _
        trivial
    · simp only [alFind, if_neg he, List.map_cons, List.mem_cons, ih]
      constructor
      · intro hm
        exact Or.inr hm
      · rintro (hm | hm)
        · exact absurd hm.symm he
        · exact hm

theorem alFind_alSet_isSome {α β : Type} [DecidableEq α] (m : List (α × β)) (k k' : α)
    (v w : β) (h : alFind m k = some w) :
    (alFind (alSet m k v) k').isSome = (alFind m k').isSome := by
  by_cases hk : k' = k
  · subst hk
    rw [alFind_alSet_self, h]
    rfl
  · rw [alFind_alSet_ne _ _ _ _ hk]

theorem alSet_preserves {α β : Type} [DecidableEq α] (P : β → Prop) (m : List (α × β))
    (k : α) (v : β) (hm : ∀ e ∈ m, P e.2) (hv : P v) :
    ∀ e ∈ alSet m k v, P e.2 := by
  induction m with
  | nil =>
    intro e he
    simp [alSet] at he
    rw [he]
    exact hv
  | cons e0 m ih =>
    intro e he
    by_cases h0 : e0.1 = k
    · simp only [alSet, if_pos h0] at he
      rcases List.mem_cons.1 he with h | h
      · rw [h]; exact hv
      · exact hm e (List.mem_cons_of_mem _ h)
    · simp only [alSet, if_neg h0] at he
      rcases List.mem_cons.1 he with h | h
      · rw [h]; exact hm e0 (List.mem_cons_self _ _)
      · exact ih (fun e' he' => hm e' (List.mem_cons_of_mem _ he')) e h

/-! ## Notification with passive callbacks -/

theorem runCbFuel_passive (env : CbId → List CbCmd) (fuel : Nat) (st : SubState)
    (cb : CbId) (h : env cb = []) :
    runCbFuel env (fuel + 1) st cb = (st, [], none) := by
  simp [runCbFuel, h, runCmdsWith]

theorem runQueue_passive (runCb : SubState → CbId → NRes) (field : String) (flagsArg : Nat)
    (st : SubState) (q : List CbId)
    (h : ∀ cb ∈ q, ∀ st1, runCb st1 cb = (st1, [], none)) :
    runQueueWith runCb field flagsArg st q
      = (st, q.map (fun cb => (cb, field, flagsArg)), none) := by
  induction q generalizing st with
  | nil => simp [runQueueWith]
  | cons cb q ih =>
    have hcb := h cb (List.mem_cons_self _ _) st
    have ih' := ih st (fun c hc => h c (List.mem_cons_of_mem _ hc))
    simp [runQueueWith, hcb, ih']

theorem notifyFlags_skip_all (runCb : SubState → CbId → NRes) (field : String)
    (flagsArg : Nat) (st : SubState) (fls : List Nat)
    (h : ∀ fl ∈ fls, flagsArg &&& fl = 0) :
    notifyFlagsWith runCb field flagsArg st fls = (st, [], none) := by
  induction fls with
  | nil => simp [notifyFlagsWith]
  | cons fl fls ih =>
    have h0 := h fl (List.mem_cons_self _ _)
    simp only [notifyFlagsWith, h0]
    simp [ih (fun g hg => h g (List.mem_cons_of_mem _ hg))]

theorem notifyFlags_single (runCb : SubState → CbId → NRes) (field : String) (fl : Nat)
    (st : SubState) (q : List CbId) (tr : List CallRec) (fls : List Nat)
    (hself : fl &&& fl ≠ 0)
    (hmem : fl ∈ fls) (hcount : fls.count fl = 1)
    (hdisj : ∀ g ∈ fls, g ≠ fl → fl &&& g = 0)
    (hq : alFind st.reg (field, fl) = some q)
    (hrun : runQueueWith runCb field fl st q = (st, tr, none)) :
    notifyFlagsWith runCb field fl st fls = (st, tr, none) := by
  induction fls with
  | nil => simp at hmem
  | cons g fls ih =>
    by_cases hg : g = fl
    · subst hg
      simp only [notifyFlagsWith]
      have hc : (g &&& g != 0) = true := by
        simp only [bne_iff_ne, ne_eq]
        exact hself
      rw [hc]
      simp only [if_true, hq, hrun]
      have hnot : g ∉ fls := by
        intro hcmem
        have h1 : 0 < fls.count g := List.count_pos_iff.2 hcmem
        have h2 : (g :: fls).count g = fls.count g + 1 := by
          simp [List.count_cons]
        rw [h2] at hcount
        omega
      have hall : ∀ g' ∈ fls, g &&& g' = 0 := by
        intro g' hg'
        apply hdisj g' (List.mem_cons_of_mem _ hg')
        intro heq
        rw [heq] at hg'
        exact hnot hg'
      rw [notifyFlags_skip_all runCb field g st fls hall]
      simp
    · have hzero : fl &&& g = 0 := hdisj g (List.mem_cons_self _ _) hg
      simp only [notifyFlagsWith, hzero]
      have hmem' : fl ∈ fls := by
        rcases List.mem_cons.1 hmem with h | h
        · exact absurd h.symm hg
        · exact h
      have hcount' : fls.count fl = 1 := by
        simp only [List.count_cons, beq_iff_eq, hg, if_false] at hcount
        omega
      simp only [bne_self_eq_false, Bool.false_eq_true, if_false]
      exact ih hmem' hcount' (fun g' hg' hne => hdisj g' (List.mem_cons_of_mem _ hg') hne)

theorem notify_single (env : CbId → List CbCmd) (fuel : Nat) (st : SubState)
    (field : String) (fl : Nat) (q : List CbId)
    (hfl : fl ∈ EVENT_FLAGS) (hmut : st.muted = false)
    (hq : alFind st.reg (field, fl) = some q)
    (hpassive : ∀ cb ∈ q, env cb = []) :
    pyNotify env (fuel + 1) st field fl
      = (st, q.map (fun cb => (cb, field, fl)), none) := by
  have hrun : runQueueWith (runCbFuel env (fuel + 1)) field fl st q
      = (st, q.map (fun cb => (cb, field, fl)), none) :=
    runQueue_passive _ _ _ _ _
      (fun cb hcb st1 => runCbFuel_passive env fuel st1 cb (hpassive cb hcb))
  simp only [pyNotify, hmut, Bool.false_eq_true, if_false, notifyCoreWith]
  have hfl4 : fl = 4 ∨ fl = 8 ∨ fl = 16 ∨ fl = 32 := by
    simpa [EVENT_FLAGS] using hfl
  have hself : fl &&& fl ≠ 0 := by
    rcases hfl4 with h | h | h | h <;> rw [h] <;> decide
  have hcount : EVENT_FLAGS.count fl = 1 := by
    rcases hfl4 with h | h | h | h <;> rw [h] <;> decide
  have hdisj : ∀ g ∈ EVENT_FLAGS, g ≠ fl → fl &&& g = 0 := by
    rcases hfl4 with h | h | h | h <;> rw [h] <;> decide
  exact notifyFlags_single _ _ _ _ _ _ _ hself hfl hcount hdisj hq hrun

/-! ## Effect of `subscribe` on the registry -/

theorem subscribeKeys_find (cb : CbId) (key : String × Nat) :
    ∀ (ks : List (String × Nat)) (reg reg' : Registry) (q : List CbId),
    alFind reg key = some q →
    subscribeKeys cb reg ks = Except.ok reg' →
    alFind reg' key = some (if key ∈ ks ∧ cb ∉ q then q ++ [cb] else q) := by
  intro ks
  induction ks with
  | nil =>
    intro reg reg' q hq hs
    simp only [subscribeKeys, Except.ok.injEq] at hs
    subst hs
    simp [hq]
  | cons k ks ih =>
    intro reg reg' q hq hs
    cases hk : alFind reg k with
    | none => simp [subscribeKeys, hk] at hs
    | some qk =>
      simp only [subscribeKeys, hk] at hs
      by_cases hkey : k = key
      · subst hkey
        rw [hq] at hk
        cases hk
        by_cases hcb : cb ∈ q
        · rw [if_pos hcb] at hs
          have := ih reg reg' q hq hs
          rw [this]
          rw [if_neg (fun hc => hc.2 hcb), if_neg (fun hc => hc.2 hcb)]
        · rw [if_neg hcb] at hs
          have hfind1 : alFind (alSet reg k (q ++ [cb])) k = some (q ++ [cb]) :=
            alFind_alSet_self reg k (q ++ [cb])
          have := ih _ reg' (q ++ [cb]) hfind1 hs
          rw [this]
          have hmemcb : cb ∈ q ++ [cb] := List.mem_append_right _ (List.mem_singleton.2 rfl)
          rw [if_neg (fun hc => hc.2 hmemcb),
            if_pos ⟨List.mem_cons_self _ _, hcb⟩]
      · have hfind1 : alFind (if cb ∈ qk then reg else alSet reg k (qk ++ [cb])) key = some q := by
          by_cases hcb : cb ∈ qk
          · rw [if_pos hcb]
            exact hq
          · rw [if_neg hcb]
            rw [alFind_alSet_ne reg k key _ (fun hh => hkey hh.symm)]
            exact hq
        have := ih _ reg' q hfind1 hs
        rw [this]
        have hiff : (key ∈ k :: ks ∧ cb ∉ q) ↔ (key ∈ ks ∧ cb ∉ q) := by
          constructor
          · rintro ⟨hm, hc⟩
            rcases List.mem_cons.1 hm with h | h
            · exact absurd h.symm hkey
            · exact ⟨h, hc⟩
          · rintro ⟨hm, hc⟩
            exact ⟨List.mem_cons_of_mem _ hm, hc⟩
        by_cases hcond : key ∈ ks ∧ cb ∉ q
        · rw [if_pos hcond, if_pos (hiff.2 hcond)]
        · rw [if_neg hcond, if_neg (fun hc => hcond (hiff.1 hc))]

theorem mem_iterQueueKeys (field f' : String) (fl fls : Nat) :
    (field, fl) ∈ iterQueueKeys f' fls ↔
      f' = field ∧ fl ∈ EVENT_FLAGS ∧ fls &&& fl ≠ 0 := by
  simp only [iterQueueKeys, matchedFlags, List.mem_map, List.mem_filter, bne_iff_ne, ne_eq,
    Prod.mk.injEq]
  constructor
  · rintro ⟨g, ⟨hg1, hg2⟩, hf, hfl⟩
    subst hfl
    exact ⟨hf, hg1, hg2⟩
  · rintro ⟨hf, hg1, hg2⟩
    exact ⟨fl, ⟨hg1, hg2⟩, hf, rfl⟩

theorem applySubs_find (field : String) (fl : Nat) (hflm : fl ∈ EVENT_FLAGS) :
    ∀ (subs : List (String × Nat × CbId)) (reg reg' : Registry) (q : List CbId),
    alFind reg (field, fl) = some q →
    applySubs reg subs = Except.ok reg' →
    alFind reg' (field, fl) = some (registrationOrder field fl q subs) := by
  intro subs
  induction subs with
  | nil =>
    intro reg reg' q hq hs
    simp only [applySubs, Except.ok.injEq] at hs
    subst hs
    simpa [registrationOrder] using hq
  | cons s subs ih =>
    intro reg reg' q hq hs
    cases hk : subscribeKeys s.2.2 reg (iterQueueKeys s.1 s.2.1) with
    | error e => simp [applySubs, hk] at hs
    | ok reg1 =>
      simp only [applySubs, hk] at hs
      have h1 := subscribeKeys_find s.2.2 (field, fl) _ reg reg1 q hq hk
      have hiff : ((field, fl) ∈ iterQueueKeys s.1 s.2.1 ∧ s.2.2 ∉ q) ↔
          (s.1 = field ∧ s.2.1 &&& fl ≠ 0 ∧ s.2.2 ∉ q) := by
        rw [mem_iterQueueKeys]
        constructor
        · rintro ⟨⟨ha, _, hb⟩, hc⟩
          exact ⟨ha, hb, hc⟩
        · rintro ⟨ha, hb, hc⟩
          exact ⟨⟨ha, hflm, hb⟩, hc⟩
      have h2 : alFind reg1 (field, fl)
          = some (if s.1 = field ∧ s.2.1 &&& fl ≠ 0 ∧ s.2.2 ∉ q then q ++ [s.2.2] else q) := by
        rw [h1]
        by_cases hcond : s.1 = field ∧ s.2.1 &&& fl ≠ 0 ∧ s.2.2 ∉ q
        · rw [if_pos (hiff.2 hcond), if_pos hcond]
        · rw [if_neg (fun hc => hcond (hiff.1 hc)), if_neg hcond]
      have h3 := ih reg1 reg' _ h2 hs
      rw [h3]
      rfl

theorem subscribeKeys_isSome (cb : CbId) :
    ∀ (ks : List (String × Nat)) (reg reg' : Registry),
    subscribeKeys cb reg ks = Except.ok reg' →
    ∀ key, (alFind reg' key).isSome = (alFind reg key).isSome := by
  intro ks
  induction ks with
  | nil =>
    intro reg reg' hs key
    simp only [subscribeKeys, Except.ok.injEq] at hs
    subst hs
    rfl
  | cons k ks ih =>
    intro reg reg' hs key
    cases hk : alFind reg k with
    | none => simp [subscribeKeys, hk] at hs
    | some qk =>
      simp only [subscribeKeys, hk] at hs
      have h1 := ih _ reg' hs key
      rw [h1]
      by_cases hcb : cb ∈ qk
      · rw [if_pos hcb]
      · rw [if_neg hcb]
        exact alFind_alSet_isSome reg k key _ qk hk

theorem applySubs_isSome :
    ∀ (subs : List (String × Nat × CbId)) (reg reg' : Registry),
    applySubs reg subs = Except.ok reg' →
    ∀ key, (alFind reg' key).isSome = (alFind reg key).isSome := by
  intro subs
  induction subs with
  | nil =>
    intro reg reg' hs key
    simp only [applySubs, Except.ok.injEq] at hs
    subst hs
    rfl
  | cons s subs ih =>
    intro reg reg' hs key
    cases hk : subscribeKeys s.2.2 reg (iterQueueKeys s.1 s.2.1) with
    | error e => simp [applySubs, hk] at hs
    | ok reg1 =>
      simp only [applySubs, hk] at hs
      rw [ih reg1 reg' hs key, subscribeKeys_isSome s.2.2 _ reg reg1 hk key]

/-! ## The initial registry -/

theorem initRegistry_entries (efs : List (String × Nat)) :
    ∀ e ∈ initRegistry efs, e.2 = ([] : List CbId) := by
  induction efs with
  | nil => simp [initRegistry]
  | cons p efs ih =>
    obtain ⟨f, fls⟩ := p
    intro e he
    simp only [initRegistry, List.mem_append] at he
    rcases he with h | h
    · rcases List.mem_map.1 h with ⟨g, _, hg⟩
      rw [← hg]
    · exact ih e h

theorem initRegistry_find_nil (efs : List (String × Nat)) (key : String × Nat)
    (q : List CbId) (h : alFind (initRegistry efs) key = some q) : q = [] :=
  initRegistry_entries efs (key, q) (alFind_mem h)

theorem initRegistry_mem_keys (efs : List (String × Nat)) (f : String) (fls fl : Nat)
    (hmem : (f, fls) ∈ efs) (hfl : fl ∈ EVENT_FLAGS) (hand : fls &&& fl ≠ 0) :
    (f, fl) ∈ (initRegistry efs).map Prod.fst := by
  induction efs with
  | nil => simp at hmem
  | cons p efs ih =>
    obtain ⟨g, gfls⟩ := p
    simp only [initRegistry, List.map_append, List.mem_append]
    rcases List.mem_cons.1 hmem with h | h
    · left
      cases h
      simp only [List.map_map, List.mem_map, Function.comp]
      refine ⟨fl, ?_, rfl⟩
      simp only [matchedFlags, List.mem_filter, bne_iff_ne, ne_eq]
      exact ⟨hfl, hand⟩
    · right
      exact ih h

theorem initRegistry_find (efs : List (String × Nat)) (f : String) (fls fl : Nat)
    (hmem : (f, fls) ∈ efs) (hfl : fl ∈ EVENT_FLAGS) (hand : fls &&& fl ≠ 0) :
    alFind (initRegistry efs) (f, fl) = some [] := by
  have h1 : (alFind (initRegistry efs) (f, fl)).isSome = true :=
    (alFind_isSome_iff_mem _ _).2 (initRegistry_mem_keys efs f fls fl hmem hfl hand)
  rcases Option.isSome_iff_exists.1 h1 with ⟨q, hq⟩
  rw [hq, initRegistry_find_nil efs (f, fl) q hq]

/-! ## The no-duplicates invariant of callback queues -/

/-- Every callback queue of the registry is duplicate-free. -/
def regQueuesNodup (reg : Registry) : Prop :=
  ∀ e ∈ reg, e.2.Nodup

theorem initRegistry_nodup (efs : List (String × Nat)) :
    regQueuesNodup (initRegistry efs) := by
  intro e he
  rw [initRegistry_entries efs e he]
  exact List.nodup_nil

theorem subscribeKeys_nodup (cb : CbId) :
    ∀ (ks : List (String × Nat)) (reg reg' : Registry),
    subscribeKeys cb reg ks = Except.ok reg' →
    regQueuesNodup reg → regQueuesNodup reg' := by
  intro ks
  induction ks with
  | nil =>
    intro reg reg' hs hn
    simp only [subscribeKeys, Except.ok.injEq] at hs
    subst hs
    exact hn
  | cons k ks ih =>
    intro reg reg' hs hn
    cases hk : alFind reg k with
    | none => simp [subscribeKeys, hk] at hs
    | some qk =>
      simp only [subscribeKeys, hk] at hs
      apply ih _ reg' hs
      by_cases hcb : cb ∈ qk
      · rw [if_pos hcb]
        exact hn
      · rw [if_neg hcb]
        apply alSet_preserves List.Nodup reg k (qk ++ [cb]) hn
        have hqk : qk.Nodup := hn (k, qk) (alFind_mem hk)
        simp [List.nodup_append, hqk, hcb]

theorem applySubs_nodup :
    ∀ (subs : List (String × Nat × CbId)) (reg reg' : Registry),
    applySubs reg subs = Except.ok reg' →
    regQueuesNodup reg → regQueuesNodup reg' := by
  intro subs
  induction subs with
  | nil =>
    intro reg reg' hs hn
    simp only [applySubs, Except.ok.injEq] at hs
    subst hs
    exact hn
  | cons s subs ih =>
    intro reg reg' hs hn
    cases hk : subscribeKeys s.2.2 reg (iterQueueKeys s.1 s.2.1) with
    | error e => simp [applySubs, hk] at hs
    | ok reg1 =>
      simp only [applySubs, hk] at hs
      exact ih reg1 reg' hs (subscribeKeys_nodup s.2.2 _ reg reg1 hk hn)

/-! ## Behaviour while the instance is muted -/

theorem subState_remute (st : SubState) (h : st.muted = true) :
    {st with muted := true} = st := by
  cases st
  simp_all

theorem runCmds_muted (doNotify : SubState → String → Nat → NRes) :
    ∀ (cs : List CbCmd) (st : SubState), st.muted = true → CbCmd.unmuteC ∉ cs →
    ∃ e, runCmdsWith doNotify st cs = (st, [], e) := by
  intro cs
  induction cs with
  | nil =>
    intro st hm _
    exact ⟨none, rfl⟩
  | cons c cs ih =>
    intro st hm hnu
    have hc : c ≠ CbCmd.unmuteC := fun h => hnu (h ▸ List.mem_cons_self _ _)
    have hcs : CbCmd.unmuteC ∉ cs := fun h => hnu (List.mem_cons_of_mem _ h)
    cases c with
    | muteC =>
      obtain ⟨e, he⟩ := ih st hm hcs
      refine ⟨e, ?_⟩
      simp [runCmdsWith, runCmdWith, subState_remute st hm, he]
    | unmuteC => exact absurd rfl hc
    | raiseC => exact ⟨some NotifyErr.userExc, rfl⟩
    | notifyC f fl =>
      obtain ⟨e, he⟩ := ih st hm hcs
      refine ⟨e, ?_⟩
      simp [runCmdsWith, runCmdWith, hm, he]

theorem runCbFuel_muted (env : CbId → List CbCmd) (fuel : Nat) (st : SubState) (cb : CbId)
    (hm : st.muted = true) (hnu : CbCmd.unmuteC ∉ env cb) :
    ∃ e, runCbFuel env fuel st cb = (st, [], e) := by
  cases fuel with
  | zero => exact ⟨some NotifyErr.outOfFuel, rfl⟩
  | succ fuel => exact runCmds_muted _ (env cb) st hm hnu

theorem runQueue_muted (env : CbId → List CbCmd) (fuel : Nat) (field : String) (fla : Nat) :
    ∀ (q : List CbId) (st : SubState), st.muted = true →
    (∀ cb ∈ q, CbCmd.unmuteC ∉ env cb) →
    ∃ tr e, runQueueWith (runCbFuel env fuel) field fla st q = (st, tr, e) ∧
      ∀ r ∈ tr, r.1 ∈ q ∧ r.2.1 = field ∧ r.2.2 = fla := by
  intro q
  induction q with
  | nil =>
    intro st hm _
    exact ⟨[], none, rfl, by simp⟩
  | cons cb q ih =>
    intro st hm hq
    obtain ⟨e0, he0⟩ := runCbFuel_muted env fuel st cb hm (hq cb (List.mem_cons_self _ _))
    cases e0 with
    | none =>
      obtain ⟨tr', e', hrun, htr⟩ := ih st hm (fun c hc => hq c (List.mem_cons_of_mem _ hc))
      refine ⟨(cb, field, fla) :: tr', e', ?_, ?_⟩
      · simp [runQueueWith, he0, hrun]
      · intro r hr
        rcases List.mem_cons.1 hr with h | h
        · rw [h]
          exact ⟨List.mem_cons_self _ _, rfl, rfl⟩
        · obtain ⟨h1, h2, h3⟩ := htr r h
          exact ⟨List.mem_cons_of_mem _ h1, h2, h3⟩
    | some e0 =>
      refine ⟨[(cb, field, fla)], some e0, ?_, ?_⟩
      · simp [runQueueWith, he0]
      · intro r hr
        rcases List.mem_cons.1 hr with h | h
        · rw [h]
          exact ⟨List.mem_cons_self _ _, rfl, rfl⟩
        · simp at h
    
theorem notifyFlags_muted (env : CbId → List CbCmd) (fuel : Nat) (field : String) (fla : Nat) :
    ∀ (fls : List Nat) (st : SubState), st.muted = true →
    (∀ en ∈ st.reg, ∀ cb ∈ en.2, CbCmd.unmuteC ∉ env cb) →
    ∃ tr e, notifyFlagsWith (runCbFuel env fuel) field fla st fls = (st, tr, e) ∧
      ∀ r ∈ tr, r.2.1 = field ∧ r.2.2 = fla := by
  intro fls
  induction fls with
  | nil =>
    intro st hm _
    exact ⟨[], none, rfl, by simp⟩
  | cons fl fls ih =>
    intro st hm henv
    by_cases hand : fla &&& fl = 0
    · obtain ⟨tr, e, hrun, htr⟩ := ih st hm henv
      refine ⟨tr, e, ?_, htr⟩
      simp [notifyFlagsWith, hand, hrun]
    · cases hfind : alFind st.reg (field, fl) with
      | none =>
        refine ⟨[], some (NotifyErr.unsupported field fl), ?_, by simp⟩
        simp only [notifyFlagsWith]
        have hb : (fla &&& fl != 0) = true := by
          simp only [bne_iff_ne, ne_eq]
          exact hand
        rw [hb]
        simp [hfind]
      | some q =>
        have hqcb : ∀ cb ∈ q, CbCmd.unmuteC ∉ env cb :=
          fun cb hc => henv ((field, fl), q) (alFind_mem hfind) cb hc
        obtain ⟨tr1, e1, hrun1, htr1⟩ := runQueue_muted env fuel field fla q st hm hqcb
        have hb : (fla &&& fl != 0) = true := by
          simp only [bne_iff_ne, ne_eq]
          exact hand
        cases e1 with
        | none =>
          obtain ⟨tr2, e2, hrun2, htr2⟩ := ih st hm henv
          refine ⟨tr1 ++ tr2, e2, ?_, ?_⟩
          · simp only [notifyFlagsWith]
            rw [hb]
            simp [hfind, hrun1, hrun2]
          · intro r hr
            rcases List.mem_append.1 hr with h | h
            · obtain ⟨_, h2, h3⟩ := htr1 r h
              exact ⟨h2, h3⟩
            · exact htr2 r h
        | some e1 =>
          refine ⟨tr1, some e1, ?_, ?_⟩
          · simp only [notifyFlagsWith]
            rw [hb]
            simp [hfind, hrun1]
          · intro r hr
            obtain ⟨_, h2, h3⟩ := htr1 r hr
            exact ⟨h2, h3⟩

/-! ## Normalization lemmas for `_format_key` -/

theorem toNat_ofNatAux (n : Nat) (h : n.isValidChar) : (Char.ofNatAux n h).toNat = n :=
  rfl

theorem pyCasefold_ne_space (c : Char) (h : c ≠ ' ') : pyCasefold c ≠ ' ' := by
  unfold pyCasefold
  split
  · intro heq
    have h3 := congrArg Char.toNat heq
    rw [toNat_ofNatAux] at h3
    have h4 : (' ' : Char).toNat = 32 := rfl
    rw [h4] at h3
    omega
  · exact h

theorem mapRepl_word (w : List Char) (h : ∀ c ∈ w, pyIsSpace c = false) :
    (w.map pyCasefold).map replSpace = w.map pyCasefold := by
  induction w with
  | nil => rfl
  | cons c w ih =>
    have hc : c ≠ ' ' := by
      intro hcc
      have h0 := h c (List.mem_cons_self _ _)
      rw [hcc] at h0
      have hsp : pyIsSpace ' ' = true := by decide
      rw [hsp] at h0
      simp at h0
    have hr : replSpace (pyCasefold c) = pyCasefold c := by
      unfold replSpace
      rw [if_neg (pyCasefold_ne_space c hc)]
    simp only [List.map_cons]
    rw [hr, ih (fun x hx => h x (List.mem_cons_of_mem _ hx))]

theorem joinSep_casefold_repl :
    ∀ (ws : List (List Char)), (∀ w ∈ ws, ∀ c ∈ w, pyIsSpace c = false) →
    ((joinSep (' ') ws).map pyCasefold).map replSpace
      = (joinSep ('_') ws).map pyCasefold := by
  intro ws
  induction ws with
  | nil =>
    intro _
    rfl
  | cons w tail ih =>
    intro h
    cases tail with
    | nil =>
      simp only [joinSep]
      exact mapRepl_word w (h w (List.mem_cons_self _ _))
    | cons w2 ws2 =>
      have hw : ∀ c ∈ w, pyIsSpace c = false := h w (List.mem_cons_self _ _)
      have ih' := ih (fun v hv => h v (List.mem_cons_of_mem _ hv))
      simp only [joinSep, List.map_append, List.map_cons]
      rw [mapRepl_word w hw, ih']
      have hconst : replSpace (pyCasefold ' ') = pyCasefold '_' := by decide
      rw [hconst]

theorem splitAux_nonspace :
    ∀ (s acc : List Char), (∀ c ∈ acc, pyIsSpace c = false) →
    ∀ w ∈ splitAux s acc, ∀ c ∈ w, pyIsSpace c = false := by
  intro s
  induction s with
  | nil =>
    intro acc hacc w hw
    simp only [splitAux] at hw
    by_cases he : acc.isEmpty
    · rw [if_pos he] at hw
      simp at hw
    · rw [if_neg he] at hw
      simp at hw
      subst hw
      intro c hc
      exact hacc c (List.mem_reverse.1 hc)
  | cons c0 cs ih =>
    intro acc hacc w hw
    simp only [splitAux] at hw
    by_cases hsp : pyIsSpace c0 = true
    · rw [if_pos hsp] at hw
      by_cases he : acc.isEmpty
      · rw [if_pos he] at hw
        exact ih [] (by simp) w hw
      · rw [if_neg he] at hw
        rcases List.mem_cons.1 hw with h | h
        · subst h
          intro c hc
          exact hacc c (List.mem_reverse.1 hc)
        · exact ih [] (by simp) w h
    · rw [if_neg hsp] at hw
      refine ih (c0 :: acc) ?_ w hw
      intro c hc
      rcases List.mem_cons.1 hc with h | h
      · subst h
        simpa using hsp
      · exact hacc c h

theorem pySplit_nonspace (s : List Char) :
    ∀ w ∈ pySplit s, ∀ c ∈ w, pyIsSpace c = false :=
  splitAux_nonspace s [] (by simp)

theorem normCore_eq (key : List Char) :
    normCore key = (joinSep ('_') (pySplit (pyStrip key))).map pyCasefold := by
  unfold normCore
  exact joinSep_casefold_repl _ (fun w hw => pySplit_nonspace _ w hw)

theorem formatKey_spec (key : List Char) :
    formatKey key = if pyIsIdentifier (specNormalize key) = true
      then Except.ok (specNormalize key) else Except.error () := by
  unfold formatKey specNormalize
  rw [normCore_eq]
  cases hL : (joinSep ('_') (pySplit (pyStrip key))).map pyCasefold with
  | nil => simp [pyIsIdentifier]
  | cons c cs => rfl

/-! ## Claims about `IdentifierDict` -/

/-- Claim C3: a get, set, or delete operation on an `IdentifierDict` raises
`ValueError` if and only if the key cannot be formatted into a valid
identifier by the normalization (strip, collapse internal whitespace runs to
single underscores, casefold, prepend an underscore when the first character
is not alphabetic, here `specNormalize`); keys whose normalization yields a
valid identifier are accepted: a set operation succeeds outright, and get and
delete never raise `ValueError` for them. -/
theorem identifierdict_valueerror_iff_spec (d : IdentifierDict) (k : List Char) (v : Nat) :
    (idGetItem d k = Except.error DictErr.valueErr
        ↔ pyIsIdentifier (specNormalize k) = false)
    ∧ (idSetItem d k v = Except.error DictErr.valueErr
        ↔ pyIsIdentifier (specNormalize k) = false)
    ∧ (idDelItem d k = Except.error DictErr.valueErr
        ↔ pyIsIdentifier (specNormalize k) = false)
    ∧ (pyIsIdentifier (specNormalize k) = true
        → ∃ d', idSetItem d k v = Except.ok d') := by
  have hf := formatKey_spec k
  by_cases hid : pyIsIdentifier (specNormalize k) = true
  · rw [if_pos hid] at hf
    simp only [idGetItem, idSetItem, idDelItem, hf, hid]
    refine ⟨?_, by simp, ?_, fun _ => ⟨_, rfl⟩⟩
    · cases alFind d.obj (specNormalize k) <;> simp
    · by_cases hp : (alFind d.obj (specNormalize k)).isSome <;> simp [hp]
  · have hid2 : pyIsIdentifier (specNormalize k) = false := by
      cases hpi : pyIsIdentifier (specNormalize k)
      · rfl
      · exact absurd hpi hid
    rw [hid2] at hf
    simp only [Bool.false_eq_true, if_false] at hf
    simp only [idGetItem, idSetItem, idDelItem, hf, hid2]
    exact ⟨by simp, by simp, by simp, fun hc => by simp at hc⟩

/-- Witness for C3 at the key `'a b'` and the empty dict. -/
theorem identifierdict_valueerror_iff_spec_witness :
    (idGetItem ⟨[]⟩ (['a', ' ', 'b']) = Except.error DictErr.valueErr
        ↔ pyIsIdentifier (specNormalize (['a', ' ', 'b'])) = false)
    ∧ (idSetItem ⟨[]⟩ (['a', ' ', 'b']) 0 = Except.error DictErr.valueErr
        ↔ pyIsIdentifier (specNormalize (['a', ' ', 'b'])) = false)
    ∧ (idDelItem ⟨[]⟩ (['a', ' ', 'b']) = Except.error DictErr.valueErr
        ↔ pyIsIdentifier (specNormalize (['a', ' ', 'b'])) = false)
    ∧ (pyIsIdentifier (specNormalize (['a', ' ', 'b'])) = true
        → ∃ d', idSetItem ⟨[]⟩ (['a', ' ', 'b']) 0 = Except.ok d') :=
  identifierdict_valueerror_iff_spec ⟨[]⟩ (['a', ' ', 'b']) 0

/-- Claim C2 counterexample: the key `'a b'` is not a valid identifier, yet
setting it on an empty `IdentifierDict` raises nothing (it is stored under
`'a_b'`) and reading the same key back returns the value -- the mapping does
not reject every non-identifier key. -/
theorem identifierdict_accepts_nonidentifier_cx :
    pyIsIdentifier (['a', ' ', 'b']) = false
    ∧ idSetItem ⟨[]⟩ (['a', ' ', 'b']) 7 = Except.ok ⟨[((['a', '_', 'b']), 7)]⟩
    ∧ idGetItem ⟨[((['a', '_', 'b']), 7)]⟩ (['a', ' ', 'b']) = Except.ok 7 := by
  decide

/-- Claim C2 (amended): for every key whose normalization cannot be formatted
into a valid identifier, every get, set, or delete operation raises
`ValueError`; non-identifier keys that normalize to a valid identifier are
accepted instead of rejected. -/
theorem identifierdict_rejects_unformattable (d : IdentifierDict) (k : List Char) (v : Nat)
    (h : pyIsIdentifier (specNormalize k) = false) :
    idGetItem d k = Except.error DictErr.valueErr
    ∧ idSetItem d k v = Except.error DictErr.valueErr
    ∧ idDelItem d k = Except.error DictErr.valueErr := by
  have hf := formatKey_spec k
  rw [h] at hf
  simp only [Bool.false_eq_true, if_false] at hf
  exact ⟨by simp [idGetItem, hf], by simp [idSetItem, hf], by simp [idDelItem, hf]⟩

/-- Witness for the amended C2 at the all-whitespace key `' '`. -/
theorem identifierdict_rejects_unformattable_witness :
    pyIsIdentifier (specNormalize ([' '])) = false
    ∧ (idGetItem ⟨[]⟩ ([' ']) = Except.error DictErr.valueErr
       ∧ idSetItem ⟨[]⟩ ([' ']) 0 = Except.error DictErr.valueErr
       ∧ idDelItem ⟨[]⟩ ([' ']) = Except.error DictErr.valueErr) :=
  ⟨by decide, identifierdict_rejects_unformattable ⟨[]⟩ ([' ']) 0 (by decide)⟩

/-- Claim C4: `IdentifierDict` is case-insensitive -- for any two accepted
keys with the same formatted form `s` (in particular keys differing only in
letter case), storing through the first and reading through the second
returns the stored value. -/
theorem identifierdict_case_insensitive (d d' : IdentifierDict)
    (k1 k2 s : List Char) (v : Nat)
    (h1 : formatKey k1 = Except.ok s) (h2 : formatKey k2 = Except.ok s)
    (hset : idSetItem d k1 v = Except.ok d') :
    idGetItem d' k2 = Except.ok v := by
  simp only [idSetItem, h1] at hset
  cases hset
  simp only [idGetItem, h2, alFind_alSet_self]

/-- Witness for C4: `d['Foo'] = 5` then `d['fOO']` returns `5`. -/
theorem identifierdict_case_insensitive_witness :
    idGetItem ⟨[((['f', 'o', 'o']), 5)]⟩ (['f', 'O', 'O']) = Except.ok 5 :=
  identifierdict_case_insensitive ⟨[]⟩ ⟨[((['f', 'o', 'o']), 5)]⟩
    (['F', 'o', 'o']) (['f', 'O', 'O']) (['f', 'o', 'o']) 5
    (by decide) (by decide) (by decide)

/-- Claim C9: membership testing applies no key formatting -- `k in d` holds
exactly when `k` is one of the stored (already formatted) keys; hence for a
key whose formatted form differs from itself, after `d[k] = v` the test
`k in d` is `False` although `d[k]` returns `v`. -/
theorem contains_no_format (d d' : IdentifierDict) (k s : List Char) (v : Nat)
    (hfmt : formatKey k = Except.ok s) (hne : s ≠ k)
    (habs : idContains d k = false)
    (hset : idSetItem d k v = Except.ok d') :
    (∀ (d0 : IdentifierDict) (k0 : List Char),
        idContains d0 k0 = true ↔ k0 ∈ d0.obj.map Prod.fst)
    ∧ idContains d' k = false
    ∧ idGetItem d' k = Except.ok v := by
  simp only [idSetItem, hfmt] at hset
  cases hset
  refine ⟨fun d0 k0 => alFind_isSome_iff_mem d0.obj k0, ?_, ?_⟩
  · simp only [idContains] at habs ⊢
    rw [alFind_alSet_ne d.obj s k v (fun h => hne h.symm)]
    exact habs
  · simp only [idGetItem, hfmt, alFind_alSet_self]

/-- Witness for C9 at the key `'A'` (formatted form `'a'`). -/
theorem contains_no_format_witness :
    (∀ (d0 : IdentifierDict) (k0 : List Char),
        idContains d0 k0 = true ↔ k0 ∈ d0.obj.map Prod.fst)
    ∧ idContains ⟨[((['a']), 3)]⟩ (['A']) = false
    ∧ idGetItem ⟨[((['a']), 3)]⟩ (['A']) = Except.ok 3 :=
  contains_no_format ⟨[]⟩ ⟨[((['a']), 3)]⟩ (['A']) (['a']) 3
    (by decide) (by decide) (by decide) (by decide)

/-! ## Claims about `create_function` -/

/-- Claim C7 counterexample: when the caller's locals mapping itself contains
the key `'_return_type'`, the generated closure binds that name to the
return annotation (here `0`), not to the caller's value (here `5`): not every
entry of the locals argument is available at its given value. -/
theorem create_function_return_type_collision_cx :
    (createFunction ("f") [] [] 0 ("m") ([(("_return_type" : String), 5)])).1.closure
      = [(("_return_type" : String), 0)]
    ∧ alFind (createFunction ("f") [] [] 0 ("m")
        ([(("_return_type" : String), 5)])).1.closure ("_return_type") = some 0
    ∧ ¬ alFind (createFunction ("f") [] [] 0 ("m")
        ([(("_return_type" : String), 5)])).1.closure ("_return_type") = some 5 := by
  decide

/-- Claim C7 (amended): the returned callable has `__name__` and
`__qualname__` equal to the given name, the locals mapping passed by the
caller is not mutated, and every entry of the locals argument whose key is
not the reserved name `'_return_type'` is available to the generated body as
an enclosing-scope variable bound to its given value (the helper overwrites a
`'_return_type'` entry with the return annotation). -/
theorem create_function_amended (name : String) (args body : List String)
    (returnType : Nat) (module : String) (locals : List (String × Nat))
    (k : String) (v : Nat) (hk : k ≠ ("_return_type"))
    (hv : alFind locals k = some v) :
    (createFunction name args body returnType module locals).1.fname = name
    ∧ (createFunction name args body returnType module locals).1.qualname = name
    ∧ (createFunction name args body returnType module locals).2 = locals
    ∧ alFind (createFunction name args body returnType module locals).1.closure k
        = some v := by
  refine ⟨rfl, rfl, rfl, ?_⟩
  simp only [createFunction]
  rw [alFind_alSet_ne locals ("_return_type") k returnType hk]
  exact hv

/-- Witness for the amended C7 at `locals = {'a': 7}`. -/
theorem create_function_amended_witness :
    (createFunction ("g") [] [] 0 ("m") ([(("a" : String), 7)])).1.fname = ("g")
    ∧ (createFunction ("g") [] [] 0 ("m") ([(("a" : String), 7)])).1.qualname = ("g")
    ∧ (createFunction ("g") [] [] 0 ("m") ([(("a" : String), 7)])).2
        = [(("a" : String), 7)]
    ∧ alFind (createFunction ("g") [] [] 0 ("m") ([(("a" : String), 7)])).1.closure ("a")
        = some 7 :=
  create_function_amended ("g") [] [] 0 ("m") ([(("a" : String), 7)]) ("a") 7
    (by decide) (by decide)

/-! ## Claim about the lazy registry -/

/-- Claim C6: the first access to `__events__` (events cache empty) builds
the registry -- an empty callback list for every `(field, flag)` pair
declared in `__event_fields__` -- between acquiring and releasing the
instance's single mutex (the same lock object `__mutex__` returns every
time), caches it, and later accesses return the cached registry without
touching the lock. -/
theorem subscribable_lazy_registry_init (efs : List (String × Nat)) (st : CacheSt)
    (h : st.events = none) :
    (getEvents efs st).1 = initRegistry efs
    ∧ (getEvents efs st).2.2
        = [LockAct.acq (getMutex st).1, LockAct.build, LockAct.rel (getMutex st).1]
    ∧ getEvents efs ((getEvents efs st).2.1)
        = ((getEvents efs st).1, (getEvents efs st).2.1, ([] : List LockAct))
    ∧ (getMutex ((getMutex st).2)).1 = (getMutex st).1
    ∧ ∀ (f : String) (fls fl : Nat), (f, fls) ∈ efs → fl ∈ EVENT_FLAGS →
        fls &&& fl ≠ 0 → alFind ((getEvents efs st).1) (f, fl) = some [] := by
  refine ⟨?_, ?_, ?_, ?_, ?_⟩
  · simp [getEvents, h]
  · simp [getEvents, h]
  · simp [getEvents, h]
  · cases hm : st.mutexId <;> simp [getMutex, hm]
  · intro f fls fl hmem hfl hand
    have h1 : (getEvents efs st).1 = initRegistry efs := by simp [getEvents, h]
    rw [h1]
    exact initRegistry_find efs f fls fl hmem hfl hand

/-- Witness for C6 on a fresh instance with one `on_set` field `'x'`. -/
theorem subscribable_lazy_registry_init_witness :
    (getEvents ([(("x" : String), 4)]) ⟨none, none, 0⟩).1
        = initRegistry ([(("x" : String), 4)])
    ∧ (getEvents ([(("x" : String), 4)]) ⟨none, none, 0⟩).2.2
        = [LockAct.acq (getMutex ⟨none, none, 0⟩).1, LockAct.build,
           LockAct.rel (getMutex ⟨none, none, 0⟩).1]
    ∧ getEvents ([(("x" : String), 4)])
          ((getEvents ([(("x" : String), 4)]) ⟨none, none, 0⟩).2.1)
        = ((getEvents ([(("x" : String), 4)]) ⟨none, none, 0⟩).1,
           (getEvents ([(("x" : String), 4)]) ⟨none, none, 0⟩).2.1, ([] : List LockAct))
    ∧ (getMutex ((getMutex ⟨none, none, 0⟩).2)).1 = (getMutex ⟨none, none, 0⟩).1
    ∧ ∀ (f : String) (fls fl : Nat), (f, fls) ∈ ([(("x" : String), 4)]) →
        fl ∈ EVENT_FLAGS → fls &&& fl ≠ 0 →
        alFind ((getEvents ([(("x" : String), 4)]) ⟨none, none, 0⟩).1) (f, fl)
          = some [] :=
  subscribable_lazy_registry_init ([(("x" : String), 4)]) ⟨none, none, 0⟩ rfl

/-! ## Claims about `notify` / `subscribe` -/

/-- Claim C1: on an unmuted instance whose registry was populated by a
sequence of successful `subscribe` calls, `notify(field, flag)` for a single
supported event flag invokes exactly the callbacks registered for
`(field, flag)` -- synchronously, within the call itself -- in first
registration order, passing each one the instance, the field name and the
event-flag mask; the callbacks here are passive observers (their bodies
issue no framework commands). -/
theorem subscribable_notify_order (efs : List (String × Nat))
    (subs : List (String × Nat × CbId)) (reg : Registry) (field : String) (fl : Nat)
    (q : List CbId) (env : CbId → List CbCmd) (fuel : Nat) (st : SubState)
    (hreg : applySubs (initRegistry efs) subs = Except.ok reg)
    (hst : st.reg = reg) (hmut : st.muted = false)
    (hfl : fl ∈ EVENT_FLAGS)
    (hq : alFind reg (field, fl) = some q)
    (hpassive : ∀ cb ∈ q, env cb = []) :
    pyNotify env (fuel + 1) st field fl
      = (st, q.map (fun cb => (cb, field, fl)), none)
    ∧ q = registrationOrder field fl [] subs := by
  constructor
  · exact notify_single env fuel st field fl q hfl hmut (hst ▸ hq) hpassive
  · have h0 := applySubs_isSome subs (initRegistry efs) reg hreg (field, fl)
    rw [hq] at h0
    simp only [Option.isSome_some] at h0
    rcases Option.isSome_iff_exists.1 h0.symm with ⟨q0, hq0⟩
    have hq0nil : q0 = [] := initRegistry_find_nil efs (field, fl) q0 hq0
    subst hq0nil
    have hfin := applySubs_find field fl hfl subs (initRegistry efs) reg [] hq0 hreg
    rw [hq] at hfin
    exact Option.some.inj hfin

/-- Witness for C1: one field `'x'` with `ON_SET`, two subscribers `0` and
`1`, notified in registration order. -/
theorem subscribable_notify_order_witness :
    pyNotify (fun _ => []) 1 ⟨[((("x" : String), 4), [0, 1])], false, []⟩ ("x") 4
      = (⟨[((("x" : String), 4), [0, 1])], false, []⟩,
         [(0, ("x" : String), 4), (1, ("x" : String), 4)], none)
    ∧ [0, 1] = registrationOrder ("x") 4 []
        ([(("x" : String), 4, 0), (("x" : String), 4, 1)]) :=
  subscribable_notify_order ([(("x" : String), 4)])
    ([(("x" : String), 4, 0), (("x" : String), 4, 1)])
    ([((("x" : String), 4), [0, 1])]) ("x") 4 [0, 1] (fun _ => []) 0
    ⟨[((("x" : String), 4), [0, 1])], false, []⟩
    (by decide) rfl rfl (by decide) (by decide) (fun cb _ => rfl)

/-- Claim C5: the callback registry is a mapping from `(field, flag)` pairs
to callback lists (for a field declared with `on_set` the pair
`(field, ON_SET)` is present, initially empty), and the setter generated for
such a field stores the value in `__cache__` first and then synchronously
invokes every callback registered for the field's `ON_SET` event. -/
theorem subscribable_on_set_notifies (efs : List (String × Nat)) (st : SubState)
    (field : String) (fls : Nat) (q : List CbId) (env : CbId → List CbCmd)
    (fuel v : Nat)
    (hmut : st.muted = false)
    (hq : alFind st.reg (field, 4) = some q)
    (hpassive : ∀ cb ∈ q, env cb = [])
    (hefs : (field, fls) ∈ efs) (hon : fls &&& 4 ≠ 0) :
    setField env (fuel + 1) st field v
      = ({st with cache := alSet st.cache field v},
         q.map (fun cb => (cb, field, 4)), none)
    ∧ alFind (alSet st.cache field v) field = some v
    ∧ alFind (initRegistry efs) (field, 4) = some [] := by
  refine ⟨?_, alFind_alSet_self _ _ _,
    initRegistry_find efs field fls 4 hefs (by decide) hon⟩
  unfold setField
  exact notify_single env fuel {st with cache := alSet st.cache field v} field 4 q
    (by decide) hmut hq hpassive

/-- Witness for C5: field `'x'` with one subscriber; the assignment stores
`9` and then fires the `ON_SET` callback. -/
theorem subscribable_on_set_notifies_witness :
    setField (fun _ => []) 1 ⟨[((("x" : String), 4), [0])], false, []⟩ ("x") 9
      = (⟨[((("x" : String), 4), [0])], false, [(("x" : String), 9)]⟩,
         [(0, ("x" : String), 4)], none)
    ∧ alFind (alSet ([] : List (String × Nat)) ("x") 9) ("x") = some 9
    ∧ alFind (initRegistry ([(("x" : String), 4)])) (("x"), 4) = some [] :=
  subscribable_on_set_notifies ([(("x" : String), 4)])
    ⟨[((("x" : String), 4), [0])], false, []⟩ ("x") 4 [0] (fun _ => []) 0 9
    rfl (by decide) (fun cb _ => rfl) (by decide) (by decide)

theorem matchedFlags_single (fl : Nat) (hfl : fl ∈ EVENT_FLAGS) :
    matchedFlags fl = [fl] := by
  have h4 : fl = 4 ∨ fl = 8 ∨ fl = 16 ∨ fl = 32 := by simpa [EVENT_FLAGS] using hfl
  rcases h4 with h | h | h | h <;> rw [h] <;> decide

theorem count_map_pair (q : List CbId) (field : String) (fl : Nat) (cb : CbId) :
    (q.map (fun c => (c, field, fl))).count (cb, field, fl) = q.count cb := by
  induction q with
  | nil => rfl
  | cons c q ih =>
    by_cases hc : c = cb
    · subst hc
      simp [List.count_cons, ih]
    · simp [List.count_cons, ih, Prod.mk.injEq, hc]

/-- Claim C8: callback queues hold each callback at most once -- on a
registry built by successful subscribe calls, re-subscribing an
already-registered callback for the same field and single event flag leaves
the instance unchanged, the callback occurs exactly once in its queue, and
`notify` for that flag invokes it exactly once. -/
theorem subscribe_idempotent_unique (efs : List (String × Nat))
    (subs : List (String × Nat × CbId)) (reg : Registry) (field : String) (fl : Nat)
    (q : List CbId) (cb : CbId) (env : CbId → List CbCmd) (fuel : Nat)
    (cache : List (String × Nat)) (st2 : SubState)
    (hreg : applySubs (initRegistry efs) subs = Except.ok reg)
    (hfl : fl ∈ EVENT_FLAGS)
    (hq : alFind reg (field, fl) = some q)
    (hmem : cb ∈ q)
    (hpassive : ∀ c ∈ q, env c = [])
    (hre : pySubscribe ⟨reg, false, cache⟩ field fl cb = Except.ok st2) :
    st2 = ⟨reg, false, cache⟩
    ∧ q.count cb = 1
    ∧ (pyNotify env (fuel + 1) ⟨reg, false, cache⟩ field fl).2.1.count (cb, field, fl)
        = 1 := by
  have hnodup : q.Nodup :=
    applySubs_nodup subs (initRegistry efs) reg hreg (initRegistry_nodup efs)
      ((field, fl), q) (alFind_mem hq)
  have hcount : q.count cb = 1 := List.count_eq_one_of_mem hnodup hmem
  have hkeys : iterQueueKeys field fl = [(field, fl)] := by
    simp [iterQueueKeys, matchedFlags_single fl hfl]
  have hsub : pySubscribe ⟨reg, false, cache⟩ field fl cb
      = Except.ok ⟨reg, false, cache⟩ := by
    simp only [pySubscribe, hkeys, subscribeKeys]
    simp [hq, hmem, subscribeKeys]
  rw [hsub] at hre
  have hst2 : st2 = ⟨reg, false, cache⟩ := (Except.ok.inj hre).symm
  refine ⟨hst2, hcount, ?_⟩
  rw [notify_single env fuel ⟨reg, false, cache⟩ field fl q hfl rfl hq hpassive]
  simpa [count_map_pair q field fl cb] using hcount

/-- Witness for C8: re-subscribing callback `0` to `('x', ON_SET)` changes
nothing and `notify` fires it once. -/
theorem subscribe_idempotent_unique_witness :
    (⟨[((("x" : String), 4), [0])], false, []⟩ : SubState)
        = ⟨[((("x" : String), 4), [0])], false, []⟩
    ∧ ([0] : List CbId).count 0 = 1
    ∧ (pyNotify (fun _ => []) 1 ⟨[((("x" : String), 4), [0])], false, []⟩
        ("x") 4).2.1.count (0, ("x" : String), 4) = 1 :=
  subscribe_idempotent_unique ([(("x" : String), 4)]) ([(("x" : String), 4, 0)])
    ([((("x" : String), 4), [0])]) ("x") 4 [0] 0 (fun _ => []) 0 []
    ⟨[((("x" : String), 4), [0])], false, []⟩
    (by decide) (by decide) (by decide) (by decide) (fun c _ => rfl) (by decide)

/-- Claim C10 counterexample: a callback may call `unmute()` and then
`notify` during `notify_once`; the nested notification is then NOT
suppressed.  Here callback `0`, registered for `('x', ON_SET)`, unmutes the
instance and notifies `('y', ON_SET)`: the trace of
`notify_once('x', 4)` contains the invocation of callback `1` for field
`'y'`, a notification triggered by a callback while `notify_once` was
running.  (The mute state is still restored on exit.) -/
theorem notify_once_unmute_cx :
    pyNotifyOnce
      (fun cb => if cb = 0 then [CbCmd.unmuteC, CbCmd.notifyC ("y") 4] else [])
      2 ⟨[((("x" : String), 4), [0]), ((("y" : String), 4), [1])], false, []⟩
      ("x") 4
      = (⟨[((("x" : String), 4), [0]), ((("y" : String), 4), [1])], false, []⟩,
         [(0, ("x" : String), 4), (1, ("y" : String), 4)], none)
    ∧ (1, ("y" : String), 4) ∈
        (pyNotifyOnce
          (fun cb => if cb = 0 then [CbCmd.unmuteC, CbCmd.notifyC ("y") 4] else [])
          2 ⟨[((("x" : String), 4), [0]), ((("y" : String), 4), [1])], false, []⟩
          ("x") 4).2.1 := by
  decide

/-- Claim C10 (amended): `notify_once` always restores the instance's mute
state on exit -- the `finally` of `suppressed()` runs whether the callbacks
return or raise -- and, provided no registered callback unmutes the
instance, every invocation in its trace carries `notify_once`'s own field
and flags: nested notifications issued by callbacks are suppressed. -/
theorem notify_once_restores_mute (env : CbId → List CbCmd) (fuel : Nat) (st : SubState)
    (field : String) (flags : Nat) :
    (pyNotifyOnce env fuel st field flags).1.muted = st.muted
    ∧ ((∀ en ∈ st.reg, ∀ cb ∈ en.2, CbCmd.unmuteC ∉ env cb) →
        ∀ r ∈ (pyNotifyOnce env fuel st field flags).2.1,
          r.2.1 = field ∧ r.2.2 = flags) := by
  by_cases hm : st.muted = true
  · constructor
    · simp [pyNotifyOnce, hm]
    · intro _ r hr
      simp [pyNotifyOnce, hm] at hr
  · have hm' : st.muted = false := by
      cases hmu : st.muted
      · rfl
      · exact absurd hmu hm
    constructor
    · simp only [pyNotifyOnce, hm', Bool.false_eq_true, if_false]
    · intro henv r hr
      obtain ⟨tr, e, hrun, htr⟩ := notifyFlags_muted env fuel field flags EVENT_FLAGS
        {st with muted := true} rfl henv
      have hcore : notifyCoreWith (runCbFuel env fuel) {st with muted := true} field flags
          = ({st with muted := true}, tr, e) := hrun
      simp only [pyNotifyOnce, hm', Bool.false_eq_true, if_false, hcore] at hr
      exact htr r hr

/-- Witness for the amended C10: one passive subscriber; the mute state is
false before and after, and the single invocation carries the notified field
and flags. -/
theorem notify_once_restores_mute_witness :
    (pyNotifyOnce (fun _ => []) 1 ⟨[((("x" : String), 4), [0])], false, []⟩
        ("x") 4).1.muted = false
    ∧ ∀ r ∈ (pyNotifyOnce (fun _ => []) 1 ⟨[((("x" : String), 4), [0])], false, []⟩
        ("x") 4).2.1, r.2.1 = ("x" : String) ∧ r.2.2 = 4 :=
  ⟨(notify_once_restores_mute (fun _ => []) 1
      ⟨[((("x" : String), 4), [0])], false, []⟩ ("x") 4).1,
   (notify_once_restores_mute (fun _ => []) 1
      ⟨[((("x" : String), 4), [0])], false, []⟩ ("x") 4).2
     (fun en _ cb hcb => by simp)⟩
